import Mathlib

/-!
Verification of the yasm bytecode/symbol-table core.

Shallow embedding of `src/bytecode.c` (given as `src/unnamed/part_000`) and
`src/symrec.c`.  Pure C functions become Lean functions; the global symbol
table and the diagnostics sink become explicit state passing.  Machine
integers (status/visibility bit sets, line numbers) are `Nat` with explicit
bit operations; `unsigned long` overflow never matters for the operations
modelled here, but the `ULONG_MAX` sentinel of `symrec_parser_finalize` is
kept explicit.
-/

set_option autoImplicit false

namespace Yasm

/-! ### Expressions (external collaborator `expr.c`)

Expressions are opaque trees here: the core only ever stores them, compares
nothing inside them, and builds one shape of node, `expr_new_tree(l, EXPR_MUL, r)`
in `bc_set_multiple`. -/

inductive ExprOp where
  | mul
deriving DecidableEq

inductive expr where
  | ident (id : Nat)
  | tree (l : expr) (op : ExprOp) (r : expr)
deriving DecidableEq

/-- `expr_new_tree(l, op, r)` builds a binary expression node. -/
def expr_new_tree (l : expr) (op : ExprOp) (r : expr) : expr :=
  expr.tree l op r

/-! ### Data values (`struct dataval` in part_000) -/

inductive dataval where
  | empty
  | expn (e : expr)
  | str_val (s : String)
deriving DecidableEq

/-- `dv_new_expr`: wrap an expression as a `DV_EXPR` data value. -/
def dv_new_expr (e : expr) : dataval := dataval.expn e

/-- `dv_new_string`: wrap a string as a `DV_STRING` data value. -/
def dv_new_string (s : String) : dataval := dataval.str_val s

/-- `dvs_append(headp, dv)`: if `dv` is non-null, insert it at the tail and
return it; a null `dv` is not stored and null is returned. -/
def dvs_append (headp : List dataval) (dv : Option dataval) :
    List dataval × Option dataval :=
  match dv with
  | some d => (headp ++ [d], some d)
  | none => (headp, none)

/-- One line of `dvs_print` output (the data payload printed per element). -/
inductive DvPrintLine where
  | emptyLine
  | exprLine (e : expr)
  | stringLine (s : String)
deriving DecidableEq

/-- The line `dvs_print` emits for one element (the switch body). -/
def dv_print_line : dataval → DvPrintLine
  | dataval.empty => DvPrintLine.emptyLine
  | dataval.expn e => DvPrintLine.exprLine e
  | dataval.str_val s => DvPrintLine.stringLine s

/-- `dvs_print(f, head)`: `STAILQ_FOREACH` over the list, printing each
element in list order.  Modelled as the sequence of emitted lines. -/
def dvs_print : List dataval → List DvPrintLine
  | [] => []
  | d :: rest => dv_print_line d :: dvs_print rest

/-- `dvs_delete(headp)`: walk the list freeing every node and its owned
payload, then `STAILQ_INIT(headp)` leaves the head empty. -/
def dvs_delete : List dataval → List dataval
  | [] => []
  | _ :: rest => dvs_delete rest

/-! ### Bytecodes (part_000)

`bytecode.h` is not among the sources; per the spec the built-in kinds are
`Empty`, `Data`, `Reserve` and extended (architecture) tags start at a fixed
threshold above the built-in range, with the dispatch table's declared
maximum (`cur_arch->bc.type_max`) beyond that threshold. -/

/-- Modelled from the spec: the `bytecode_type` tag values of the missing
`bytecode.h`.  `BC_EMPTY`, `BC_DATA`, `BC_RESERVE` are the built-in kinds in
declaration order, and extended tags occupy `BC_EXT_BASE` upward. -/
def BC_EMPTY : Nat := 0

/-- Modelled from the spec: see `BC_EMPTY`. -/
def BC_DATA : Nat := 1

/-- Modelled from the spec: see `BC_EMPTY`. -/
def BC_RESERVE : Nat := 2

/-- Modelled from the spec: the fixed threshold where extended
(architecture-supplied) bytecode tags begin; the dispatch table's declared
`type_max` is at least this. -/
def BC_EXT_BASE : Nat := 3

/-- Kind-specific trailing payload of a bytecode (the `datasize` bytes after
the `bytecode` header that `bc_get_data` exposes). -/
inductive BcPayload where
  | unset
  | data (datahead : List dataval) (size : Nat)
  | reserve (numitems : expr) (itemsize : Nat)
  | ext (payload : Nat)
deriving DecidableEq

structure bytecode where
  type : Nat
  multiple : Option expr
  len : Nat
  filename : String
  lineno : Nat
  offset : Nat
  payload : BcPayload
deriving DecidableEq

/-- `bc_new_common(type, datasize)`: allocate the node shell, stamp the
current source location (`in_filename`/`line_number` globals, passed here
explicitly), no multiplier, zero length and offset. -/
def bc_new_common (ty : Nat) (fn : String) (ln : Nat) : bytecode :=
  { type := ty, multiple := none, len := 0, filename := fn, lineno := ln,
    offset := 0, payload := BcPayload.unset }

/-- `bc_new_data(datahead, size)`. -/
def bc_new_data (datahead : List dataval) (size : Nat) (fn : String) (ln : Nat) :
    bytecode :=
  { bc_new_common BC_DATA fn ln with payload := BcPayload.data datahead size }

/-- `bc_new_reserve(numitems, itemsize)`. -/
def bc_new_reserve (numitems : expr) (itemsize : Nat) (fn : String) (ln : Nat) :
    bytecode :=
  { bc_new_common BC_RESERVE fn ln with
    payload := BcPayload.reserve numitems itemsize }

/-- `bc_set_multiple(bc, e)`: if a multiplier already exists, replace it with
`expr_new_tree(old, EXPR_MUL, e)`; otherwise set it directly. -/
def bc_set_multiple (bc : bytecode) (e : expr) : bytecode :=
  match bc.multiple with
  | some m => { bc with multiple := some (expr_new_tree m ExprOp.mul e) }
  | none => { bc with multiple := some e }

/-- `bc_get_offset(sect, bc, ret_val)`: returns 0 ("not possible") and never
writes `*ret_val`.  Result is (return code, final `*ret_val`); the section is
opaque. -/
def bc_get_offset (sect : Nat) (bc : bytecode) (ret_val : Nat) : Nat × Nat :=
  (0, ret_val)

/-- What `bc_parser_finalize` does with a node.  `noAction` is produced by no
branch of the embedded code; it is the "no extra finalize step" outcome the
spec describes, included so that statement is expressible. -/
inductive FinalizeAction where
  | fatalEmptyBytecode
  | delegateToArch
  | fatalUnknownType
  | noAction
deriving DecidableEq

/-- `bc_parser_finalize(bc)`: `case BC_EMPTY` raises the fatal
"got empty bytecode" internal error; every other tag takes the `default`
branch, delegating to `cur_arch->bc.bc_parser_finalize` when the tag is below
the dispatch table's `type_max` and raising the fatal "Unknown bytecode type"
internal error otherwise. -/
def bc_parser_finalize (type_max : Nat) (bc : bytecode) : FinalizeAction :=
  if bc.type = BC_EMPTY then FinalizeAction.fatalEmptyBytecode
  else if bc.type < type_max then FinalizeAction.delegateToArch
  else FinalizeAction.fatalUnknownType

/-- Result of `bcs_append`: the new list, the returned (stored) reference,
and the node freed by the `xfree(bc)` branch, if any. -/
structure AppendResult where
  list : List bytecode
  stored : Option bytecode
  destroyed : Option bytecode
deriving DecidableEq

/-- `bcs_append(headp, bc)`: a non-null, non-`BC_EMPTY` bytecode is inserted
at the tail (`STAILQ_INSERT_TAIL`) and returned; a `BC_EMPTY` one is freed
and null is returned; a null `bc` returns null. -/
def bcs_append (headp : List bytecode) (bc : Option bytecode) : AppendResult :=
  match bc with
  | some b =>
    if b.type ≠ BC_EMPTY then
      { list := headp ++ [b], stored := some b, destroyed := none }
    else
      { list := headp, stored := none, destroyed := some b }
  | none => { list := headp, stored := none, destroyed := none }

/-- Build a data value list by a sequence of `dvs_append` calls starting
from the empty (`STAILQ_INIT`-ed) head. -/
def dvs_build (ds : List dataval) : List dataval :=
  List.foldl (fun h d => (dvs_append h (some d)).1) [] ds

/-! ### Symbol records (`symrec.c`)

`struct symrec`, the process-wide ternary-tree symbol table (modelled as an
association list with one entry per name; the spec leaves traversal order
implementation-defined, here it is insertion order), the `Error`/`ErrorAt`
diagnostics sink (modelled as an appended list) and the object format's
`declare_data_delete` destructor (modelled as a log of destroyed payloads)
become one explicit state record `SymState`.  The `in_table == 0` path of
`symrec_get_or_new` (used only by `symrec_define_label` for transient
pseudo-labels) is not needed by any operation modelled here and is omitted:
all operations below pass `in_table = 1` in the source. -/

/-- `SYM_USED` status bit: used before definition. -/
def SYM_USED : Nat := 1

/-- `SYM_DEFINED` status bit: defined in the file. -/
def SYM_DEFINED : Nat := 2

/-- `SYM_VALUED` status bit: value has been determined. -/
def SYM_VALUED : Nat := 4

/-- Modelled from the spec: `SymVisibility` is declared in a header that is
not among the sources; per the spec it is the bitset Local/Global/Common/
Extern with `Local` the default, and `symrec.c` manipulates it with `&`/`|`
bit operations, so the flags are distinct single bits.  `SYM_LOCAL` is the
empty bitset. -/
def SYM_LOCAL : Nat := 0

/-- Modelled from the spec: see `SYM_LOCAL`. -/
def SYM_GLOBAL : Nat := 1

/-- Modelled from the spec: see `SYM_LOCAL`. -/
def SYM_COMMON : Nat := 2

/-- Modelled from the spec: see `SYM_LOCAL`. -/
def SYM_EXTERN : Nat := 4

/-- `SymType`: unknown (Common/Extern), EQU, or label. -/
inductive SymType where
  | unknown
  | equ
  | label
deriving DecidableEq

/-- The `value` union of `struct symrec`; `unset` models the uninitialized
union of a record fresh out of `symrec_get_or_new`. -/
inductive SymValue where
  | unset
  | expn (e : expr)
  | label (sect : Option Nat) (bc : Option Nat)
deriving DecidableEq

structure symrec where
  name : String
  type : SymType
  status : Nat
  visibility : Nat
  filename : String
  line : Nat
  value : SymValue
  of_data_vis_ce : Option Nat
  of_data_vis_g : Option Nat
deriving DecidableEq

/-- Diagnostics this core emits through `Error`/`ErrorAt`. -/
inductive Diag where
  | duplicateDefinition (name : String) (firstLine : Nat)
  | undefinedSymbol (filename : String) (line : Nat) (name : String)
  | undefinedSummaryNote (filename : String) (line : Nat)
deriving DecidableEq

/-- The process-wide mutable state `symrec.c` works on: the symbol table,
the diagnostics sink, the log of backend payloads destroyed via
`declare_data_delete`, and the source-location globals `in_filename` /
`line_number`. -/
structure SymState where
  table : List symrec
  errors : List Diag
  destroyed : List (Nat × Nat)
  in_filename : String
  line_number : Nat
deriving DecidableEq

/-- Lookup in the symbol table (the ternary tree keyed by name). -/
def findSym : List symrec → String → Option symrec
  | [], _ => none
  | r :: rest, n => if r.name = n then some r else findSym rest n

/-- Write back an updated record over the entry with the same name
(C mutates the looked-up record in place through the returned pointer). -/
def setSym : List symrec → String → symrec → List symrec
  | [], _, _ => []
  | r :: rest, n, r2 => if r.name = n then r2 :: rest else r :: setSym rest n r2

/-- A record fresh out of `symrec_get_or_new` with `in_table` set: status
`SYM_NOSTATUS`, unknown type, current source location, local visibility,
both backend slots null, value union uninitialized. -/
def symrec_new (n fn : String) (ln : Nat) : symrec :=
  { name := n, type := SymType.unknown, status := 0, visibility := SYM_LOCAL,
    filename := fn, line := ln, value := SymValue.unset,
    of_data_vis_ce := none, of_data_vis_g := none }

/-- `symrec_get_or_new(name, 1)`: `ternary_insert` returns the existing
record if the name is present, otherwise inserts and returns a fresh one. -/
def symrec_get_or_new (t : List symrec) (n fn : String) (ln : Nat) :
    List symrec × symrec :=
  match findSym t n with
  | some r => (t, r)
  | none => (t ++ [symrec_new n fn ln], symrec_new n fn ln)

/-- `symrec_use(name)`: fetch-or-create, then set the `Used` flag. -/
def symrec_use (st : SymState) (n : String) : SymState × symrec :=
  let tr := symrec_get_or_new st.table n st.in_filename st.line_number
  let r2 := { tr.2 with status := tr.2.status ||| SYM_USED }
  ({ st with table := setSym tr.1 n r2 }, r2)

/-- `symrec_define(name, type, 1)`: if already `Defined`, report a duplicate
definition citing the original line and leave the record untouched;
otherwise stamp the definition line, assign the type, set `Defined`. -/
def symrec_define (st : SymState) (n : String) (ty : SymType) :
    SymState × symrec :=
  let tr := symrec_get_or_new st.table n st.in_filename st.line_number
  if tr.2.status &&& SYM_DEFINED ≠ 0 then
    ({ st with
        table := tr.1
        errors := st.errors ++ [Diag.duplicateDefinition n tr.2.line] }, tr.2)
  else
    let r2 := { tr.2 with
        line := st.line_number
        type := ty
        status := tr.2.status ||| SYM_DEFINED }
    ({ st with table := setSym tr.1 n r2 }, r2)

/-- `symrec_define_equ(name, e)`: defining transition with kind `Equ`, then
unconditionally store `e` in the value union and set `Valued`. -/
def symrec_define_equ (st : SymState) (n : String) (e : expr) :
    SymState × symrec :=
  let sr := symrec_define st n SymType.equ
  let r2 := { sr.2 with
      value := SymValue.expn e
      status := sr.2.status ||| SYM_VALUED }
  ({ sr.1 with table := setSym sr.1.table n r2 }, r2)

/-- The `symrec_declare` conflict test: already defined and not extern, or
common redeclared extern, or extern redeclared common. -/
def declareConflict (r : symrec) (vis : Nat) : Bool :=
  ((r.status &&& SYM_DEFINED != 0) && (r.visibility &&& SYM_EXTERN == 0)) ||
  ((r.visibility &&& SYM_COMMON != 0) && (vis == SYM_EXTERN)) ||
  ((r.visibility &&& SYM_EXTERN != 0) && (vis == SYM_COMMON))

/-- `symrec_declare(name, vis, of_data)`: on conflict, report a duplicate
definition citing the original line and destroy `of_data` via the backend
destructor instead of storing it; otherwise stamp the declaration line, OR
in the visibility, set `Defined` for Common/Extern, and store a non-null
payload in the slot selected by `vis` — any other `vis` with a non-null
payload is the fatal "Unexpected vis value" internal error. -/
def symrec_declare (st : SymState) (n : String) (vis : Nat)
    (of_data : Option Nat) : Except String (SymState × symrec) :=
  let tr := symrec_get_or_new st.table n st.in_filename st.line_number
  if declareConflict tr.2 vis then
    Except.ok ({ st with
        table := tr.1
        errors := st.errors ++ [Diag.duplicateDefinition n tr.2.line]
        destroyed := st.destroyed ++
          (match of_data with | some p => [(vis, p)] | none => []) }, tr.2)
  else
    let r2 := { tr.2 with
        line := st.line_number
        visibility := tr.2.visibility ||| vis
        status := if vis = SYM_COMMON ∨ vis = SYM_EXTERN
                  then tr.2.status ||| SYM_DEFINED else tr.2.status }
    match of_data with
    | none => Except.ok ({ st with table := setSym tr.1 n r2 }, r2)
    | some p =>
      if vis = SYM_GLOBAL then
        let r3 := { r2 with of_data_vis_g := some p }
        Except.ok ({ st with table := setSym tr.1 n r3 }, r3)
      else if vis = SYM_COMMON ∨ vis = SYM_EXTERN then
        let r3 := { r2 with of_data_vis_ce := some p }
        Except.ok ({ st with table := setSym tr.1 n r3 }, r3)
      else
        Except.error "Unexpected vis value"

/-- `ULONG_MAX` (unsigned long on LP64): the sentinel value
`firstundef_line` is reset to at the start of `symrec_parser_finalize`. -/
def ULONG_MAX : Nat := 2 ^ 64 - 1

/-- `symrec_parser_finalize_checksym(sym, d)`: a symbol with `Used` set but
`Defined` unset gets one undefined-symbol diagnostic at its stored (first
use) location, and the earliest offending line is tracked with a strict
`<` running minimum; always returns 1 (continue traversal).  The
accumulator is (diagnostics, firstundef_line, firstundef_filename). -/
def symrec_parser_finalize_checksym (sym : symrec)
    (acc : List Diag × Nat × String) : (List Diag × Nat × String) × Bool :=
  if sym.status &&& SYM_USED ≠ 0 ∧ sym.status &&& SYM_DEFINED = 0 then
    let errs := acc.1 ++ [Diag.undefinedSymbol sym.filename sym.line sym.name]
    if sym.line < acc.2.1 then ((errs, sym.line, sym.filename), true)
    else ((errs, acc.2.1, acc.2.2), true)
  else (acc, true)

/-- `symrec_traverse(d, func)` over the table: calls `func` on every
symbol, stopping early (and returning 0) if the visitor returns 0;
returns 1 after visiting every symbol. -/
def symrec_traverse {σ : Type} (t : List symrec) (d : σ)
    (f : symrec → σ → σ × Bool) : σ × Bool :=
  match t with
  | [] => (d, true)
  | s :: rest =>
    let r := f s d
    if r.2 then symrec_traverse rest r.1 f else (r.1, false)

/-- `symrec_parser_finalize()`: reset `firstundef_line` to `ULONG_MAX`,
traverse the whole table with `checksym`, then emit one summary note at
the earliest offending location if any undefined symbol was found.  The
Bool is the traverse result (1 = every symbol visited). -/
def symrec_parser_finalize (st : SymState) : SymState × Bool :=
  let tr := symrec_traverse st.table (st.errors, ULONG_MAX, "")
      symrec_parser_finalize_checksym
  if tr.1.2.1 < ULONG_MAX then
    ({ st with errors :=
        (tr.1.1 ++ [Diag.undefinedSummaryNote tr.1.2.2 tr.1.2.1]) }, tr.2)
  else
    ({ st with errors := tr.1.1 }, tr.2)

/-- A parser-driven use history: each step moves the source-location
globals to (file, line) and calls `use(name)`.  Steps are
(name, file, line). -/
def runUses (st : SymState) : List (String × String × Nat) → SymState
  | [] => st
  | u :: rest =>
    runUses
      (symrec_use { st with in_filename := u.2.1, line_number := u.2.2 }
        u.1).1 rest

/-- The state at translation start: empty table, no diagnostics. -/
def initState : SymState :=
  { table := [], errors := [], destroyed := [], in_filename := "",
    line_number := 0 }

/-- The first use of each distinct name in a use history (in first-use
order), the names in `seen` being treated as already used. -/
def firstUses (seen : List String) :
    List (String × String × Nat) → List (String × String × Nat)
  | [] => []
  | u :: rest =>
    if u.1 ∈ seen then firstUses seen rest
    else u :: firstUses (u.1 :: seen) rest

/-- The record `use(name)` leaves in the table for a name first used at
(file, line): a fresh record with only the `Used` bit set. -/
def usedSym (u : String × String × Nat) : symrec :=
  { symrec_new u.1 u.2.1 u.2.2 with status := SYM_USED }

/-- A table of used-but-never-defined symbols. -/
def usedTable (us : List (String × String × Nat)) : List symrec :=
  us.map usedSym

/-- The running strict-minimum fold `checksym` performs on
(firstundef_line, firstundef_filename) over the offending locations. -/
def foldMin : List (String × String × Nat) → Nat → String → Nat × String
  | [], ful, fuf => (ful, fuf)
  | u :: rest, ful, fuf =>
    if u.2.2 < ful then foldMin rest u.2.2 u.2.1 else foldMin rest ful fuf

/-- The name an undefined-symbol diagnostic reports, if it is one. -/
def undefDiagName : Diag → Option String
  | Diag.undefinedSymbol _ _ n => some n
  | _ => none

/-- The undefined-symbol diagnostic emitted for a first use. -/
def undefDiag (u : String × String × Nat) : Diag :=
  Diag.undefinedSymbol u.2.1 u.2.2 u.1

/-- Concrete use history for the C6 witness: `x` used twice, `y` once,
none ever defined. -/
def c6_uses : List (String × String × Nat) :=
  [("x", "a.asm", 5), ("x", "b.asm", 9), ("y", "a.asm", 3)]

/-! ### Concrete scenario states used by counterexamples and witnesses -/

/-- Fresh translation state; the parser is at `a.asm` line 1. -/
def c1_state0 : SymState :=
  { table := [], errors := [], destroyed := [], in_filename := "a.asm",
    line_number := 1 }

/-- After `define_equ("n", ident 1)` at line 1. -/
def c1_state1 : SymState := (symrec_define_equ c1_state0 "n" (expr.ident 1)).1

/-- After a second `define_equ("n", ident 2)` at line 2. -/
def c1_state2 : SymState :=
  (symrec_define_equ { c1_state1 with line_number := 2 } "n" (expr.ident 2)).1

/-- Fresh translation state; the parser is at `a.asm` line 3. -/
def c5_state0 : SymState :=
  { table := [], errors := [], destroyed := [], in_filename := "a.asm",
    line_number := 3 }

/-- After `declare("e", Extern, payload 10)` at line 3. -/
def c5_state1 : SymState :=
  match symrec_declare c5_state0 "e" SYM_EXTERN (some 10) with
  | Except.ok sr => sr.1
  | Except.error _ => c5_state0

/-- The record held for `"e"` in `c5_state1`. -/
def c5_rec1 : symrec :=
  { name := "e", type := SymType.unknown, status := 2, visibility := 4,
    filename := "a.asm", line := 3, value := SymValue.unset,
    of_data_vis_ce := some 10, of_data_vis_g := none }

/-- A state whose table holds an untouched fresh record for `"x"`. -/
def c9_state : SymState :=
  { table := [symrec_new "x" "a.asm" 1], errors := [], destroyed := [],
    in_filename := "a.asm", line_number := 2 }

/-! ## Theorems -/

theorem findSym_name {t : List symrec} {n : String} {r : symrec}
    (h : findSym t n = some r) : r.name = n := by
  induction t with
  | nil => simp [findSym] at h
  | cons x rest ih =>
    by_cases hx : x.name = n
    · simp [findSym, hx] at h
      rw [← h]
      exact hx
    · simp [findSym, hx] at h
      exact ih h

theorem findSym_setSym {t : List symrec} {n : String} {r : symrec}
    (h : findSym t n = some r) (r' : symrec) (h' : r'.name = n) :
    findSym (setSym t n r') n = some r' := by
  induction t with
  | nil => simp [findSym] at h
  | cons x rest ih =>
    by_cases hx : x.name = n
    · simp [setSym, hx, findSym, h']
    · simp [findSym, hx] at h
      simp [setSym, hx, findSym, ih h]

theorem dvs_build_go (ds : List dataval) (acc : List dataval) :
    List.foldl (fun h d => (dvs_append h (some d)).1) acc ds = acc ++ ds := by
  induction ds generalizing acc with
  | nil => simp
  | cons d rest ih =>
    have h1 : (dvs_append acc (some d)).1 = acc ++ [d] := rfl
    rw [List.foldl_cons, h1, ih]
    simp

theorem dvs_print_eq_map (l : List dataval) :
    dvs_print l = l.map dv_print_line := by
  induction l with
  | nil => rfl
  | cons d rest ih => simp [dvs_print, ih]

theorem dvs_delete_eq_nil (l : List dataval) : dvs_delete l = [] := by
  induction l with
  | nil => rfl
  | cons d rest ih => simpa [dvs_delete] using ih

/-- C3: appending an `Empty`-kind bytecode leaves the list unchanged,
destroys the node and returns no stored reference; any other kind is
inserted at the tail (preserving arrival order) and returned. -/
theorem bcs_append_empty_discards_else_tail (L : List bytecode) (bc : bytecode) :
    (bc.type = BC_EMPTY →
      bcs_append L (some bc) =
        { list := L, stored := none, destroyed := some bc }) ∧
    (bc.type ≠ BC_EMPTY →
      bcs_append L (some bc) =
        { list := L ++ [bc], stored := some bc, destroyed := none }) := by
  constructor
  · intro h
    simp [bcs_append, h]
  · intro h
    simp [bcs_append, h]

/-- Witness for C3 at concrete inputs: an empty bytecode is discarded, a
data bytecode is stored at the tail. -/
theorem bcs_append_empty_discards_else_tail_witness :
    (bcs_append [] (some (bc_new_common BC_EMPTY "a.asm" 1)) =
      { list := [], stored := none,
        destroyed := some (bc_new_common BC_EMPTY "a.asm" 1) }) ∧
    (bcs_append [] (some (bc_new_data [] 2 "a.asm" 1)) =
      { list := [bc_new_data [] 2 "a.asm" 1],
        stored := some (bc_new_data [] 2 "a.asm" 1), destroyed := none }) :=
  ⟨(bcs_append_empty_discards_else_tail [] (bc_new_common BC_EMPTY "a.asm" 1)).1
      (by decide),
   (bcs_append_empty_discards_else_tail [] (bc_new_data [] 2 "a.asm" 1)).2
      (by decide)⟩

/-- C4: a first `bc_set_multiple` on a bytecode with no multiplier stores
the argument directly; a second call composes multiplicatively, leaving
`old * new` (the tree `A * B`), not `B` alone. -/
theorem bc_set_multiple_twice_composes (bc : bytecode) (A B : expr)
    (h : bc.multiple = none) :
    (bc_set_multiple bc A).multiple = some A ∧
    (bc_set_multiple (bc_set_multiple bc A) B).multiple =
      some (expr.tree A ExprOp.mul B) := by
  constructor
  · simp [bc_set_multiple, h]
  · simp [bc_set_multiple, h, expr_new_tree]

/-- Witness for C4 at a concrete bytecode and expressions. -/
theorem bc_set_multiple_twice_composes_witness :
    ((bc_new_common BC_DATA "a.asm" 1).multiple = none) ∧
    (bc_set_multiple (bc_set_multiple (bc_new_common BC_DATA "a.asm" 1)
        (expr.ident 5)) (expr.ident 7)).multiple =
      some (expr.tree (expr.ident 5) ExprOp.mul (expr.ident 7)) :=
  ⟨rfl,
   (bc_set_multiple_twice_composes (bc_new_common BC_DATA "a.asm" 1)
      (expr.ident 5) (expr.ident 7) rfl).2⟩

/-- C7: `bc_get_offset` returns the "not possible" code 0 for every input
and never writes an offset into the result slot. -/
theorem bc_get_offset_always_unavailable (sect : Nat) (bc : bytecode)
    (ret_val : Nat) :
    bc_get_offset sect bc ret_val = (0, ret_val) := rfl

/-- C2 counterexample: a `Data` bytecode reaching `bc_parser_finalize` is
delegated to the architecture dispatch table (its tag falls into the
`default` branch and is below `type_max`), contradicting the claim that the
dispatch table is not invoked for built-in `Data`/`Reserve` kinds. -/
theorem bc_parser_finalize_data_delegates_counterexample :
    bc_parser_finalize BC_EXT_BASE (bc_new_data [] 2 "a.asm" 1) =
      FinalizeAction.delegateToArch ∧
    FinalizeAction.delegateToArch ≠ FinalizeAction.noAction := by
  constructor
  · decide
  · decide

/-- C2 amended: `bc_parser_finalize` has no dedicated `Data`/`Reserve`
cases; both fall into the `default` branch and, their tags being below the
dispatch table's declared maximum, are delegated to the architecture
dispatch table just like in-range extended kinds, raising no error at this
layer; a tag at or above `type_max` is a fatal "Unknown bytecode type"
internal error. -/
theorem bc_parser_finalize_default_dispatch (type_max : Nat) (bc : bytecode)
    (hmax : BC_EXT_BASE ≤ type_max) :
    ((bc.type = BC_DATA ∨ bc.type = BC_RESERVE) →
      bc_parser_finalize type_max bc = FinalizeAction.delegateToArch) ∧
    (bc.type ≠ BC_EMPTY → bc.type < type_max →
      bc_parser_finalize type_max bc = FinalizeAction.delegateToArch) ∧
    (type_max ≤ bc.type →
      bc_parser_finalize type_max bc = FinalizeAction.fatalUnknownType) := by
  refine ⟨?_, ?_, ?_⟩
  · intro h
    have h0 : bc.type ≠ BC_EMPTY := by
      rcases h with h | h <;> simp [h, BC_DATA, BC_RESERVE, BC_EMPTY]
    have h1 : bc.type < type_max := by
      simp only [BC_EXT_BASE] at hmax
      rcases h with h | h <;> simp only [h, BC_DATA, BC_RESERVE] <;> omega
    simp [bc_parser_finalize, h0, h1]
  · intro hne hlt
    simp [bc_parser_finalize, hne, hlt]
  · intro hge
    have hne : bc.type ≠ BC_EMPTY := by
      simp only [BC_EMPTY, BC_EXT_BASE] at *
      omega
    simp [bc_parser_finalize, hne]
    omega

/-- Witness for the C2 amended theorem at concrete inputs. -/
theorem bc_parser_finalize_default_dispatch_witness :
    bc_parser_finalize BC_EXT_BASE (bc_new_reserve (expr.ident 4) 1 "a.asm" 2) =
      FinalizeAction.delegateToArch :=
  (bc_parser_finalize_default_dispatch BC_EXT_BASE
      (bc_new_reserve (expr.ident 4) 1 "a.asm" 2) (by decide)).1
    (Or.inr rfl)

/-- C8: a data value list built by successive appends prints exactly the
appended values in insertion order, and after `dvs_delete` a traversal
observes an empty list. -/
theorem dvs_roundtrip_print_delete (ds : List dataval) :
    dvs_build ds = ds ∧
    dvs_print (dvs_build ds) = ds.map dv_print_line ∧
    dvs_delete (dvs_build ds) = [] ∧
    dvs_print (dvs_delete (dvs_build ds)) = [] := by
  have hb : dvs_build ds = ds := by
    simpa [dvs_build] using dvs_build_go ds []
  refine ⟨hb, ?_, ?_, ?_⟩
  · rw [hb, dvs_print_eq_map]
  · rw [dvs_delete_eq_nil]
  · rw [dvs_delete_eq_nil]; rfl

/-- C10: `symrec_use` on a symbol already in the table only ORs in the
`Used` status bit — kind, value, visibility, backend slots, file and line
are unchanged, only that table entry is rewritten, and no diagnostic or
payload destruction occurs. -/
theorem symrec_use_frame (st : SymState) (n : String) (r : symrec)
    (h : findSym st.table n = some r) :
    (symrec_use st n).2.status = r.status ||| SYM_USED ∧
    (symrec_use st n).2.type = r.type ∧
    (symrec_use st n).2.value = r.value ∧
    (symrec_use st n).2.visibility = r.visibility ∧
    (symrec_use st n).2.of_data_vis_ce = r.of_data_vis_ce ∧
    (symrec_use st n).2.of_data_vis_g = r.of_data_vis_g ∧
    (symrec_use st n).2.filename = r.filename ∧
    (symrec_use st n).2.line = r.line ∧
    (symrec_use st n).1.table = setSym st.table n (symrec_use st n).2 ∧
    findSym (symrec_use st n).1.table n = some (symrec_use st n).2 ∧
    (symrec_use st n).1.errors = st.errors ∧
    (symrec_use st n).1.destroyed = st.destroyed := by
  have key : symrec_use st n =
      ({ st with table :=
          (setSym st.table n { r with status := r.status ||| SYM_USED }) },
        { r with status := r.status ||| SYM_USED }) := by
    simp [symrec_use, symrec_get_or_new, h]
  rw [key]
  refine ⟨rfl, rfl, rfl, rfl, rfl, rfl, rfl, rfl, rfl, ?_, rfl, rfl⟩
  refine findSym_setSym h _ ?_
  exact @findSym_name st.table n r h

/-- Witness for C10 on a concrete one-entry table. -/
theorem symrec_use_frame_witness :
    (symrec_use c9_state "x").2.line = 1 ∧
    (symrec_use c9_state "x").2.status = SYM_USED ∧
    (symrec_use c9_state "x").1.errors = [] := by
  have h := symrec_use_frame c9_state "x" (symrec_new "x" "a.asm" 1) (by decide)
  exact ⟨h.2.2.2.2.2.2.2.1, h.1, h.2.2.2.2.2.2.2.2.2.2.1⟩

/-- C1 counterexample: defining `n` by EQU twice stores the *second*
expression, not the first — `symrec_define_equ` assigns the value union
unconditionally after the (failed) defining transition.  The duplicate
diagnostic citing the first definition's line is still emitted. -/
theorem symrec_define_equ_overwrites_counterexample :
    c1_state2.errors = [Diag.duplicateDefinition "n" 1] ∧
    (findSym c1_state2.table "n").map symrec.value =
      some (SymValue.expn (expr.ident 2)) ∧
    (findSym c1_state2.table "n").map symrec.value ≠
      some (SymValue.expn (expr.ident 1)) := by
  refine ⟨?_, ?_, ?_⟩ <;> decide

/-- C1 amended: a second `define_equ` on an already-defined symbol reports
a duplicate-definition diagnostic citing the first definition's line and
leaves kind and recorded line untouched, but the stored expression is
overwritten with the second one (and `Valued` is ORed in). -/
theorem symrec_define_equ_duplicate (st : SymState) (n : String) (r : symrec)
    (e2 : expr) (h : findSym st.table n = some r)
    (hd : r.status &&& SYM_DEFINED ≠ 0) :
    symrec_define_equ st n e2 =
      ({ st with
          table :=
            (setSym st.table n
              { r with
                  value := SymValue.expn e2
                  status := r.status ||| SYM_VALUED })
          errors := st.errors ++ [Diag.duplicateDefinition n r.line] },
        { r with
            value := SymValue.expn e2
            status := r.status ||| SYM_VALUED }) ∧
    (symrec_define_equ st n e2).2.type = r.type ∧
    (symrec_define_equ st n e2).2.line = r.line := by
  have key : symrec_define_equ st n e2 =
      ({ st with
          table :=
            (setSym st.table n
              { r with
                  value := SymValue.expn e2
                  status := r.status ||| SYM_VALUED })
          errors := st.errors ++ [Diag.duplicateDefinition n r.line] },
        { r with
            value := SymValue.expn e2
            status := r.status ||| SYM_VALUED }) := by
    simp [symrec_define_equ, symrec_define, symrec_get_or_new, h, hd]
  rw [key]
  exact ⟨rfl, rfl, rfl⟩

/-- Witness for the C1 amended theorem at the concrete duplicate-EQU run:
kind is still `equ`, the recorded line is still 1. -/
theorem symrec_define_equ_duplicate_witness :
    (symrec_define_equ { c1_state1 with line_number := 2 } "n"
        (expr.ident 2)).2.type = SymType.equ ∧
    (symrec_define_equ { c1_state1 with line_number := 2 } "n"
        (expr.ident 2)).2.line = 1 := by
  have h := symrec_define_equ_duplicate { c1_state1 with line_number := 2 } "n"
      { name := "n", type := SymType.equ, status := 6, visibility := 0,
        filename := "a.asm", line := 1, value := SymValue.expn (expr.ident 1),
        of_data_vis_ce := none, of_data_vis_g := none }
      (expr.ident 2) (by decide) (by decide)
  exact ⟨h.2.1, h.2.2⟩

/-- C5: `symrec_declare` conflicts exactly on the three-clause rule
(defined-and-not-extern, common-then-extern, extern-then-common); a
conflict reports a duplicate-definition diagnostic citing the original
line, destroys the passed payload through the backend destructor instead
of storing it, and leaves the table entry untouched; without a conflict no
diagnostic is emitted and nothing is destroyed; redeclaring an `Extern`
symbol `Extern` succeeds, while Extern/Common mixing conflicts either way. -/
theorem symrec_declare_conflict_behavior (st : SymState) (n : String)
    (r : symrec) (vis p : Nat) (h : findSym st.table n = some r) :
    (declareConflict r vis = true ↔
      ((r.status &&& SYM_DEFINED ≠ 0 ∧ r.visibility &&& SYM_EXTERN = 0) ∨
       (r.visibility &&& SYM_COMMON ≠ 0 ∧ vis = SYM_EXTERN) ∨
       (r.visibility &&& SYM_EXTERN ≠ 0 ∧ vis = SYM_COMMON))) ∧
    (declareConflict r vis = true →
      symrec_declare st n vis (some p) =
        Except.ok ({ st with
            errors := st.errors ++ [Diag.duplicateDefinition n r.line]
            destroyed := st.destroyed ++ [(vis, p)] }, r)) ∧
    (declareConflict r vis = false → ∀ st2 r2,
      symrec_declare st n vis (some p) = Except.ok (st2, r2) →
      st2.errors = st.errors ∧ st2.destroyed = st.destroyed) ∧
    (r.visibility = SYM_EXTERN → vis = SYM_EXTERN →
      declareConflict r vis = false ∧
      symrec_declare st n vis (some p) =
        Except.ok ({ st with table :=
            (setSym st.table n
              { r with
                  line := st.line_number
                  visibility := SYM_EXTERN
                  status := r.status ||| SYM_DEFINED
                  of_data_vis_ce := some p }) },
          { r with
              line := st.line_number
              visibility := SYM_EXTERN
              status := r.status ||| SYM_DEFINED
              of_data_vis_ce := some p })) ∧
    (r.visibility &&& SYM_EXTERN ≠ 0 → vis = SYM_COMMON →
      declareConflict r vis = true) ∧
    (r.visibility &&& SYM_COMMON ≠ 0 → vis = SYM_EXTERN →
      declareConflict r vis = true) := by
  refine ⟨?_, ?_, ?_, ?_, ?_, ?_⟩
  · simp [declareConflict, Bool.or_eq_true, Bool.and_eq_true, bne_iff_ne,
      beq_iff_eq]
    tauto
  · intro hc
    simp [symrec_declare, symrec_get_or_new, h, hc]
  · intro hnc st2 r2 heq
    by_cases hg : vis = SYM_GLOBAL
    · subst hg
      simp [symrec_declare, symrec_get_or_new, h, hnc] at heq
      obtain ⟨h1, h2⟩ := heq
      rw [← h1]
      exact ⟨rfl, rfl⟩
    · by_cases hce : vis = SYM_COMMON ∨ vis = SYM_EXTERN
      · simp [symrec_declare, symrec_get_or_new, h, hnc, hg, hce] at heq
        obtain ⟨h1, h2⟩ := heq
        rw [← h1]
        exact ⟨rfl, rfl⟩
      · simp [symrec_declare, symrec_get_or_new, h, hnc, hg, hce] at heq
  · intro hv hvis
    subst hvis
    have hnc : declareConflict r SYM_EXTERN = false := by
      simp [declareConflict, hv, SYM_EXTERN, SYM_COMMON]
      try decide
    refine ⟨hnc, ?_⟩
    have hg : ¬ ((SYM_EXTERN : Nat) = SYM_GLOBAL) := by decide
    have hor : SYM_EXTERN = SYM_COMMON ∨ SYM_EXTERN = SYM_EXTERN :=
      Or.inr rfl
    have hv4 : r.visibility ||| SYM_EXTERN = SYM_EXTERN := by
      rw [hv]
      exact Nat.or_self _
    simp [symrec_declare, symrec_get_or_new, h, hnc, hg, hor, hv4]
  · intro hx hvis
    subst hvis
    simp [declareConflict, SYM_COMMON, SYM_EXTERN] at hx ⊢
    omega
  · intro hx hvis
    subst hvis
    simp [declareConflict, SYM_COMMON, SYM_EXTERN] at hx ⊢
    omega

/-- Witness for C5: after declaring `"e"` Extern with payload 10, a Common
declaration with payload 11 conflicts, appends the duplicate diagnostic
citing line 3 and logs the destroyed payload. -/
theorem symrec_declare_conflict_behavior_witness :
    symrec_declare c5_state1 "e" SYM_COMMON (some 11) =
      Except.ok ({ c5_state1 with
          errors := c5_state1.errors ++ [Diag.duplicateDefinition "e" 3]
          destroyed := c5_state1.destroyed ++ [(SYM_COMMON, 11)] },
        c5_rec1) := by
  have h := symrec_declare_conflict_behavior c5_state1 "e" c5_rec1
      SYM_COMMON 11 (by decide)
  exact h.2.1 (h.2.2.2.2.1 (by decide) rfl)

/-- C9: `symrec_declare` with a non-null payload and a visibility other
than Global/Common/Extern (e.g. Local), when the conflict check does not
fire, hits the fatal "Unexpected vis value" internal error; the same call
with a null payload succeeds, merely ORing the visibility bits and
emitting no diagnostic. -/
theorem symrec_declare_unexpected_vis (st : SymState) (n : String)
    (r : symrec) (vis p : Nat) (h : findSym st.table n = some r)
    (hg : vis ≠ SYM_GLOBAL) (hc : vis ≠ SYM_COMMON) (he : vis ≠ SYM_EXTERN)
    (hnc : declareConflict r vis = false) :
    symrec_declare st n vis (some p) =
      Except.error "Unexpected vis value" ∧
    (∃ st2 r2, symrec_declare st n vis none = Except.ok (st2, r2) ∧
      r2.visibility = r.visibility ||| vis ∧ st2.errors = st.errors ∧
      st2.destroyed = st.destroyed) := by
  have hce : ¬ (vis = SYM_COMMON ∨ vis = SYM_EXTERN) := by
    rintro (hh | hh)
    · exact hc hh
    · exact he hh
  constructor
  · simp [symrec_declare, symrec_get_or_new, h, hnc, hg, hce]
  · have key : symrec_declare st n vis none =
        Except.ok ({ st with table :=
            (setSym st.table n
              { r with
                  line := st.line_number
                  visibility := r.visibility ||| vis
                  status := r.status }) },
          { r with
              line := st.line_number
              visibility := r.visibility ||| vis
              status := r.status }) := by
      simp [symrec_declare, symrec_get_or_new, h, hnc, hce]
    exact ⟨_, _, key, rfl, rfl, rfl⟩

/-- Witness for C9 on a fresh local symbol: Local visibility with payload
aborts; with a null payload it succeeds. -/
theorem symrec_declare_unexpected_vis_witness :
    symrec_declare c9_state "x" SYM_LOCAL (some 7) =
      Except.error "Unexpected vis value" :=
  (symrec_declare_unexpected_vis c9_state "x" (symrec_new "x" "a.asm" 1)
      SYM_LOCAL 7 (by decide) (by decide) (by decide) (by decide)
      (by decide)).1

theorem setSym_same {t : List symrec} {n : String} {r : symrec}
    (h : findSym t n = some r) : setSym t n r = t := by
  induction t with
  | nil => rfl
  | cons x rest ih =>
    by_cases hx : x.name = n
    · simp [findSym, hx] at h
      subst h
      simp [setSym, hx]
    · simp [findSym, hx] at h
      simp [setSym, hx, ih h]

theorem setSym_append_fresh {t : List symrec} {n : String} {x : symrec}
    (h : findSym t n = none) (hx : x.name = n) (y : symrec) :
    setSym (t ++ [x]) n y = t ++ [y] := by
  induction t with
  | nil => simp [setSym, hx]
  | cons z rest ih =>
    rw [findSym] at h
    by_cases hz : z.name = n
    · simp [hz] at h
    · simp [hz] at h
      simp [setSym, hz, ih h]

theorem findSym_usedTable_none (L : List (String × String × Nat))
    (n : String) :
    findSym (usedTable L) n = none ↔ n ∉ L.map Prod.fst := by
  induction L with
  | nil => simp [usedTable, findSym]
  | cons u rest ih =>
    by_cases hu : u.1 = n
    · simp [usedTable, findSym, usedSym, symrec_new, hu]
    · simp only [usedTable, List.map_cons, findSym, usedSym, symrec_new]
      simp only [usedTable] at ih
      simp [hu, ih, Ne.symm hu]

theorem findSym_usedTable_status {L : List (String × String × Nat)}
    {n : String} {r : symrec}
    (h : findSym (usedTable L) n = some r) : r.status = SYM_USED := by
  induction L with
  | nil => simp [usedTable, findSym] at h
  | cons u rest ih =>
    by_cases hu : (usedSym u).name = n
    · simp [usedTable, findSym, hu] at h
      rw [← h]
      rfl
    · simp [usedTable, findSym, hu] at h
      exact ih h

theorem used_status_or (r : symrec) (h : r.status = SYM_USED) :
    { r with status := r.status ||| SYM_USED } = r := by
  cases r
  simp only at h
  simp [h, Nat.or_self]

theorem firstUses_congr {s1 s2 : List String}
    (h : ∀ x, x ∈ s1 ↔ x ∈ s2) :
    ∀ us, firstUses s1 us = firstUses s2 us := by
  intro us
  induction us generalizing s1 s2 with
  | nil => rfl
  | cons u rest ih =>
    by_cases hu : u.1 ∈ s1
    · have hu2 : u.1 ∈ s2 := (h u.1).1 hu
      simp [firstUses, hu, hu2, ih h]
    · have hu2 : u.1 ∉ s2 := fun hh => hu ((h u.1).2 hh)
      have h2 : ∀ x, x ∈ u.1 :: s1 ↔ x ∈ u.1 :: s2 := by
        intro x
        simp [h x]
      simp [firstUses, hu, hu2, ih h2]

theorem firstUses_subset {seen : List String}
    {us : List (String × String × Nat)} {u : String × String × Nat}
    (h : u ∈ firstUses seen us) : u ∈ us := by
  induction us generalizing seen with
  | nil => simp [firstUses] at h
  | cons v rest ih =>
    by_cases hv : v.1 ∈ seen
    · simp only [firstUses, if_pos hv] at h
      exact List.mem_cons_of_mem v (ih h)
    · simp only [firstUses, if_neg hv, List.mem_cons] at h
      rcases h with h | h
      · exact h ▸ List.mem_cons_self v rest
      · exact List.mem_cons_of_mem v (ih h)

theorem runUses_table (us : List (String × String × Nat)) :
    ∀ (st : SymState) (L : List (String × String × Nat)),
      st.table = usedTable L →
      (runUses st us).table =
        usedTable (L ++ firstUses (L.map Prod.fst) us) ∧
      (runUses st us).errors = st.errors ∧
      (runUses st us).destroyed = st.destroyed := by
  induction us with
  | nil =>
    intro st L h
    simp [runUses, firstUses, h]
  | cons u rest ih =>
    intro st L h
    have hstep :
        runUses st (u :: rest) =
          runUses
            (symrec_use
              { st with in_filename := u.2.1, line_number := u.2.2 }
              u.1).1 rest := rfl
    by_cases hm : u.1 ∈ L.map Prod.fst
    · -- the name is already in the table: only the Used bit is re-ORed,
      -- which leaves the record (and hence the table) unchanged
      have hne : findSym (usedTable L) u.1 ≠ none := by
        intro hc
        rw [findSym_usedTable_none] at hc
        exact hc hm
      obtain ⟨r, hr⟩ := Option.ne_none_iff_exists'.mp hne
      have hst : r.status = SYM_USED := findSym_usedTable_status hr
      have huse :
          (symrec_use
            { st with in_filename := u.2.1, line_number := u.2.2 }
            u.1).1 =
            { st with in_filename := u.2.1, line_number := u.2.2 } := by
        simp only [symrec_use, symrec_get_or_new, h, hr]
        rw [used_status_or r hst, setSym_same hr]
        try simp [h]
      rw [hstep, huse]
      have hfu :
          firstUses (L.map Prod.fst) (u :: rest) =
            firstUses (L.map Prod.fst) rest := by
        simp [firstUses, hm]
      rw [hfu]
      exact ih _ L h
    · -- fresh name: a new record with only Used set is appended
      have hnone : findSym (usedTable L) u.1 = none := by
        rw [findSym_usedTable_none]
        simpa using hm
      have huse :
          (symrec_use
            { st with in_filename := u.2.1, line_number := u.2.2 }
            u.1).1 =
            { st with
                table := usedTable (L ++ [u])
                in_filename := u.2.1
                line_number := u.2.2 } := by
        simp only [symrec_use, symrec_get_or_new, h, hnone]
        rw [setSym_append_fresh hnone rfl]
        have : { symrec_new u.1 u.2.1 u.2.2 with
            status := (symrec_new u.1 u.2.1 u.2.2).status ||| SYM_USED } =
            usedSym u := by
          simp [symrec_new, usedSym, SYM_USED]
        rw [this]
        simp [usedTable]
      rw [hstep, huse]
      have hr := ih { st with
          table := usedTable (L ++ [u])
          in_filename := u.2.1
          line_number := u.2.2 } (L ++ [u]) rfl
      refine ⟨?_, hr.2.1, hr.2.2⟩
      rw [hr.1]
      have hseen : ∀ x, x ∈ (L ++ [u]).map Prod.fst ↔
          x ∈ u.1 :: L.map Prod.fst := by
        intro x
        simp [or_comm]
      rw [firstUses_congr hseen rest]
      have hfu : firstUses (L.map Prod.fst) (u :: rest) =
          u :: firstUses (u.1 :: L.map Prod.fst) rest := by
        simp [firstUses, hm]
      rw [hfu]
      simp

theorem checksym_used (sym : symrec) (acc : List Diag × Nat × String)
    (h : sym.status = SYM_USED) :
    symrec_parser_finalize_checksym sym acc =
      ((acc.1 ++ [Diag.undefinedSymbol sym.filename sym.line sym.name],
        if sym.line < acc.2.1 then (sym.line, sym.filename)
        else (acc.2.1, acc.2.2)), true) := by
  have hc : sym.status &&& SYM_USED ≠ 0 ∧ sym.status &&& SYM_DEFINED = 0 := by
    rw [h]
    decide
  rw [symrec_parser_finalize_checksym, if_pos hc]
  by_cases hlt : sym.line < acc.2.1
  · simp [hlt]
  · simp [hlt]

theorem traverse_checksym (M : List (String × String × Nat)) :
    ∀ (errs : List Diag) (ful : Nat) (fuf : String),
      symrec_traverse (usedTable M) (errs, ful, fuf)
          symrec_parser_finalize_checksym =
        ((errs ++ M.map undefDiag, foldMin M ful fuf), true) := by
  induction M with
  | nil =>
    intro errs ful fuf
    simp [symrec_traverse, usedTable, foldMin]
  | cons u rest ih =>
    intro errs ful fuf
    have hu : (usedSym u).status = SYM_USED := rfl
    have hstep := checksym_used (usedSym u) (errs, ful, fuf) hu
    have hopen : usedTable (u :: rest) = usedSym u :: usedTable rest := rfl
    rw [hopen, symrec_traverse]
    simp only [hstep]
    by_cases hlt : u.2.2 < ful
    · have hfm : foldMin (u :: rest) ful fuf = foldMin rest u.2.2 u.2.1 := by
        simp [foldMin, hlt]
      have hline : (usedSym u).line = u.2.2 := rfl
      simp only [usedSym, symrec_new] at hstep ⊢
      simp [hlt, ih, hfm, undefDiag, foldMin]
    · have hfm : foldMin (u :: rest) ful fuf = foldMin rest ful fuf := by
        simp [foldMin, hlt]
      simp only [usedSym, symrec_new] at hstep ⊢
      simp [hlt, ih, hfm, undefDiag, foldMin]

theorem foldMin_spec (M : List (String × String × Nat)) :
    ∀ (ful : Nat) (fuf : String),
      (foldMin M ful fuf = (ful, fuf) ∧ ∀ v ∈ M, ful ≤ v.2.2) ∨
      (∃ u ∈ M, foldMin M ful fuf = (u.2.2, u.2.1) ∧ u.2.2 < ful ∧
        ∀ v ∈ M, u.2.2 ≤ v.2.2) := by
  induction M with
  | nil =>
    intro ful fuf
    left
    exact ⟨rfl, by simp⟩
  | cons u rest ih =>
    intro ful fuf
    by_cases hlt : u.2.2 < ful
    · have hfm : foldMin (u :: rest) ful fuf = foldMin rest u.2.2 u.2.1 := by
        simp [foldMin, hlt]
      rcases ih u.2.2 u.2.1 with ⟨heq, hbound⟩ | ⟨w, hw, heq, hwlt, hbound⟩
      · right
        refine ⟨u, List.mem_cons_self u rest, by rw [hfm, heq], hlt, ?_⟩
        intro v hv
        rcases List.mem_cons.mp hv with hv | hv
        · rw [hv]
        · exact hbound v hv
      · right
        refine ⟨w, List.mem_cons_of_mem u hw, by rw [hfm, heq],
          lt_trans hwlt hlt, ?_⟩
        intro v hv
        rcases List.mem_cons.mp hv with hv | hv
        · rw [hv]
          exact le_of_lt hwlt
        · exact hbound v hv
    · have hfm : foldMin (u :: rest) ful fuf = foldMin rest ful fuf := by
        simp [foldMin, hlt]
      rcases ih ful fuf with ⟨heq, hbound⟩ | ⟨w, hw, heq, hwlt, hbound⟩
      · left
        refine ⟨by rw [hfm, heq], ?_⟩
        intro v hv
        rcases List.mem_cons.mp hv with hv | hv
        · rw [hv]
          exact Nat.le_of_not_lt hlt
        · exact hbound v hv
      · right
        refine ⟨w, List.mem_cons_of_mem u hw, by rw [hfm, heq], hwlt, ?_⟩
        intro v hv
        rcases List.mem_cons.mp hv with hv | hv
        · rw [hv]
          exact le_of_lt (lt_of_lt_of_le hwlt (Nat.le_of_not_lt hlt))
        · exact hbound v hv

theorem countP_map_undefDiag (M : List (String × String × Nat)) (n : String) :
    List.countP (fun d => undefDiagName d = some n) (M.map undefDiag) =
      List.countP (fun u => u.1 = n) M := by
  induction M with
  | nil => rfl
  | cons u rest ih =>
    simp only [List.map_cons, List.countP_cons, ih]
    by_cases hn : u.1 = n
    · simp [undefDiag, undefDiagName, hn]
    · simp [undefDiag, undefDiagName, hn]

theorem countP_firstUses (us : List (String × String × Nat)) :
    ∀ (seen : List String) (n : String),
      List.countP (fun u => u.1 = n) (firstUses seen us) =
        if n ∉ seen ∧ n ∈ us.map Prod.fst then 1 else 0 := by
  induction us with
  | nil =>
    intro seen n
    simp [firstUses]
  | cons u rest ih =>
    intro seen n
    by_cases hu : u.1 ∈ seen
    · rw [show firstUses seen (u :: rest) = firstUses seen rest from by
        simp [firstUses, hu], ih seen n]
      by_cases hn : n = u.1
      · subst hn
        simp [hu]
      · simp only [List.map_cons]
        have hiff : (n ∉ seen ∧ n ∈ List.map Prod.fst rest) ↔
            (n ∉ seen ∧ n ∈ u.1 :: List.map Prod.fst rest) := by
          simp [List.mem_cons, hn]
        rw [if_congr hiff rfl rfl]
    · rw [show firstUses seen (u :: rest) =
          u :: firstUses (u.1 :: seen) rest from by
        simp [firstUses, hu], List.countP_cons, ih (u.1 :: seen) n]
      by_cases hn : n = u.1
      · subst hn
        simp [hu, List.mem_cons]
      · simp only [List.map_cons, hn, decide_eq_true_eq, if_false,
          decide_False]
        have hiff : (n ∉ u.1 :: seen ∧ n ∈ List.map Prod.fst rest) ↔
            (n ∉ seen ∧ n ∈ u.1 :: List.map Prod.fst rest) := by
          simp [List.mem_cons, hn]
        rw [if_congr hiff rfl rfl]
        have hn2 : ¬ (u.1 = n) := fun hc => hn hc.symm
        simp [hn2]

/-- C6: for any use history over an initially empty table (every line
below the `ULONG_MAX` sentinel) in which no symbol is ever defined,
`symrec_parser_finalize` (a) completes the traversal (the visitor always
returns 1, so the pass never halts early), (b) emits nothing when there
were no uses, (c) otherwise emits exactly one undefined-symbol diagnostic
per distinct name, at its first-use file and line, in first-use order,
followed by exactly one summary note whose location is an offending
first-use location of minimal line, and (d) each used name receives
exactly one undefined-symbol diagnostic, no matter how often it was used. -/
theorem symrec_parser_finalize_undefined (us : List (String × String × Nat))
    (hl : ∀ u ∈ us, u.2.2 < ULONG_MAX) :
    (symrec_parser_finalize (runUses initState us)).2 = true ∧
    (us = [] →
      (symrec_parser_finalize (runUses initState us)).1.errors = []) ∧
    (us ≠ [] → ∃ f0 l0,
      (symrec_parser_finalize (runUses initState us)).1.errors =
        (firstUses [] us).map undefDiag ++
          [Diag.undefinedSummaryNote f0 l0] ∧
      (∃ u ∈ firstUses [] us, l0 = u.2.2 ∧ f0 = u.2.1) ∧
      (∀ u ∈ firstUses [] us, l0 ≤ u.2.2)) ∧
    (∀ n ∈ us.map Prod.fst,
      List.countP (fun d => undefDiagName d = some n)
        (symrec_parser_finalize (runUses initState us)).1.errors = 1) := by
  obtain ⟨htab, herr, -⟩ := runUses_table us initState [] rfl
  simp only [List.nil_append, List.map_nil] at htab
  have herr0 : (runUses initState us).errors = [] := by
    rw [herr]
    rfl
  have htrav := traverse_checksym (firstUses [] us) [] ULONG_MAX ""
  simp only [List.nil_append] at htrav
  have h2 : (symrec_parser_finalize (runUses initState us)).2 = true := by
    simp only [symrec_parser_finalize, htab, herr0, htrav]
    by_cases hful : (foldMin (firstUses [] us) ULONG_MAX "").1 < ULONG_MAX <;>
      simp [hful]
  have herrs : (symrec_parser_finalize (runUses initState us)).1.errors =
      (firstUses [] us).map undefDiag ++
        (if (foldMin (firstUses [] us) ULONG_MAX "").1 < ULONG_MAX then
          [Diag.undefinedSummaryNote
            (foldMin (firstUses [] us) ULONG_MAX "").2
            (foldMin (firstUses [] us) ULONG_MAX "").1]
        else []) := by
    simp only [symrec_parser_finalize, htab, herr0, htrav]
    by_cases hful : (foldMin (firstUses [] us) ULONG_MAX "").1 < ULONG_MAX <;>
      simp [hful]
  refine ⟨h2, ?_, ?_, ?_⟩
  · intro hnil
    subst hnil
    simp [herrs, firstUses, foldMin]
  · intro hne
    have hMne : firstUses [] us ≠ [] := by
      cases us with
      | nil => exact absurd rfl hne
      | cons u rest => simp [firstUses]
    rcases foldMin_spec (firstUses [] us) ULONG_MAX "" with
      ⟨heq, hbound⟩ | ⟨w, hw, heq, hwlt, hbound⟩
    · obtain ⟨m, hm⟩ := List.exists_mem_of_ne_nil _ hMne
      have : m.2.2 < ULONG_MAX := hl m (firstUses_subset hm)
      have := hbound m hm
      omega
    · refine ⟨w.2.1, w.2.2, ?_, ⟨w, hw, rfl, rfl⟩, hbound⟩
      have hwul : w.2.2 < ULONG_MAX := hl w (firstUses_subset hw)
      rw [herrs, heq]
      simp [hwul]
  · intro n hn
    rw [herrs, List.countP_append, countP_map_undefDiag,
      countP_firstUses us [] n]
    have hnote : List.countP (fun d => undefDiagName d = some n)
        (if (foldMin (firstUses [] us) ULONG_MAX "").1 < ULONG_MAX then
          [Diag.undefinedSummaryNote
            (foldMin (firstUses [] us) ULONG_MAX "").2
            (foldMin (firstUses [] us) ULONG_MAX "").1]
        else []) = 0 := by
      by_cases hful :
          (foldMin (firstUses [] us) ULONG_MAX "").1 < ULONG_MAX <;>
        simp [hful, undefDiagName]
    rw [hnote]
    simp [hn]

/-- Witness for C6 on a concrete history: `x` used at lines 5 and 9, `y`
at line 3, nothing defined; the pass completes and `x` gets exactly one
undefined-symbol diagnostic. -/
theorem symrec_parser_finalize_undefined_witness :
    (symrec_parser_finalize (runUses initState c6_uses)).2 = true ∧
    List.countP (fun d => undefDiagName d = some "x")
      (symrec_parser_finalize (runUses initState c6_uses)).1.errors = 1 :=
  ⟨(symrec_parser_finalize_undefined c6_uses (by decide)).1,
   (symrec_parser_finalize_undefined c6_uses (by decide)).2.2.2 "x"
     (by decide)⟩

end Yasm
